import Mathlib

/-!
Verification of the GPS speedometer page (src/app/page.tsx) against its
natural-language specification.

The page is a single React component.  Its numeric core is embedded here
over ℝ (the idealisation of JavaScript numbers): `calculateSpeed` (the
haversine distance / derived-speed function), the speed-history smoother
(`pushSample`, `smoothSpeed`), and the two state machines formed by the
component's state hooks and handlers — the tracking session
(`TrackState` with `startTracking` / `stopTracking` / the `watchPosition`
success and error handlers / `resetMaxSpeed`) and the camera-and-recording
controller (`CaptureState` with `startCamera` / `startRecording` /
`stopRecording` / `stopCamera` / `downloadVideo`).

Definitions whose name matches a function of the source embed that
function; definitions prefixed `spec` restate a formula in the words of
the specification, for refinement theorems.
-/

/-- A position fix as the component retains it (`Position` in the source):
latitude and longitude in degrees, timestamp in milliseconds. -/
structure Position where
  latitude : ℝ
  longitude : ℝ
  timestamp : ℝ

/-- JavaScript's Math.atan2, embedded as the argument of the complex number
x + y·i (range (−π, π]). -/
noncomputable def atan2 (y x : ℝ) : ℝ :=
  Complex.arg { re := x, im := y }

/-- The source's `calculateSpeed(pos1, pos2)`: haversine great-circle
distance with mean Earth radius 6 371 000 m between the two fixes, divided
by the time delta in seconds, converted from m/s to mph by the factor
2.237; 0 when the time delta is 0. -/
noncomputable def calculateSpeed (pos1 pos2 : Position) : ℝ :=
  let R : ℝ := 6371e3
  let φ1 := pos1.latitude * Real.pi / 180
  let φ2 := pos2.latitude * Real.pi / 180
  let dLat := (pos2.latitude - pos1.latitude) * Real.pi / 180
  let dLon := (pos2.longitude - pos1.longitude) * Real.pi / 180
  let a := Real.sin (dLat / 2) * Real.sin (dLat / 2) +
    Real.cos φ1 * Real.cos φ2 * Real.sin (dLon / 2) * Real.sin (dLon / 2)
  let c := 2 * atan2 (Real.sqrt a) (Real.sqrt (1 - a))
  let distance := R * c
  let timeDiff := (pos2.timestamp - pos1.timestamp) / 1000
  if timeDiff = 0 then 0
  else
    let speedMps := distance / timeDiff
    speedMps * 2.237

/-- The specification's haversine distance, in its words: with
a_hav = sin²(Δφ/2) + cos φ1·cos φ2·sin²(Δλ/2) and
c = 2·atan2(√a_hav, √(1−a_hav)), the distance is R·c for
R = 6 371 000 m. -/
noncomputable def specHaversineDistance (p1 p2 : Position) : ℝ :=
  let R : ℝ := 6371e3
  let φ1 := p1.latitude * Real.pi / 180
  let φ2 := p2.latitude * Real.pi / 180
  let dLat := (p2.latitude - p1.latitude) * Real.pi / 180
  let dLon := (p2.longitude - p1.longitude) * Real.pi / 180
  let aHav := Real.sin (dLat / 2) * Real.sin (dLat / 2) +
    Real.cos φ1 * Real.cos φ2 * Real.sin (dLon / 2) * Real.sin (dLon / 2)
  let c := 2 * atan2 (Real.sqrt aHav) (Real.sqrt (1 - aHav))
  R * c

/-- C1: for every pair of fixes, `calculateSpeed` returns the haversine
great-circle distance (mean Earth radius 6 371 000 m) divided by the time
delta in seconds and converted to mph by the factor 2.237; and for every
pair with identical timestamps it returns exactly 0, with no error raised
(the function is total). -/
theorem calculateSpeed_spec (a b : Position) :
    (b.timestamp - a.timestamp ≠ 0 →
      calculateSpeed a b =
        specHaversineDistance a b / ((b.timestamp - a.timestamp) / 1000) * 2.237) ∧
    (b.timestamp = a.timestamp → calculateSpeed a b = 0) := by
  constructor
  · intro h
    have hne : (b.timestamp - a.timestamp) / 1000 ≠ 0 := by
      exact div_ne_zero h (by norm_num)
    simp only [calculateSpeed, specHaversineDistance]
    rw [if_neg hne]
  · intro h
    have hz : (b.timestamp - a.timestamp) / 1000 = 0 := by
      rw [h, sub_self, zero_div]
    simp only [calculateSpeed]
    rw [if_pos hz]

/-- Concrete fixes for the C1 witness: one second apart, and a copy of the
first fix at the same timestamp. -/
noncomputable def fixAtStart : Position := { latitude := 0, longitude := 0, timestamp := 0 }

noncomputable def fixOneSecondLater : Position := { latitude := 0, longitude := 1 / 1000, timestamp := 1000 }

noncomputable def fixDuplicateTimestamp : Position := { latitude := 3, longitude := 4, timestamp := 0 }

/-- Witness for C1: the theorem applied to concrete fixes, with both
hypotheses discharged. -/
theorem calculateSpeed_spec_witness :
    (fixOneSecondLater.timestamp - fixAtStart.timestamp ≠ 0 ∧
      calculateSpeed fixAtStart fixOneSecondLater =
        specHaversineDistance fixAtStart fixOneSecondLater /
          ((fixOneSecondLater.timestamp - fixAtStart.timestamp) / 1000) * 2.237) ∧
    calculateSpeed fixAtStart fixDuplicateTimestamp = 0 :=
  ⟨⟨by norm_num [fixOneSecondLater, fixAtStart],
    (calculateSpeed_spec fixAtStart fixOneSecondLater).1
      (by norm_num [fixOneSecondLater, fixAtStart])⟩,
   (calculateSpeed_spec fixAtStart fixDuplicateTimestamp).2 rfl⟩

/-- The push-and-evict step of the source's `smoothSpeed`: append the new
sample to the history and, if the history then holds more than 5 entries,
shift off the oldest. -/
def pushSample (history : List ℝ) (newSpeed : ℝ) : List ℝ :=
  let pushed := history ++ [newSpeed]
  if 5 < pushed.length then pushed.tail else pushed

/-- The weighted-sum accumulator of `smoothSpeed`'s forEach loop, entered
with the index the loop has reached: each sample contributes
sample · (index + 1). -/
noncomputable def weightedSumFrom (i : ℕ) : List ℝ → ℝ
  | [] => 0
  | s :: rest => s * ((i : ℝ) + 1) + weightedSumFrom (i + 1) rest

/-- The total-weight accumulator of the same loop: each sample contributes
index + 1. -/
noncomputable def totalWeightFrom (i : ℕ) : List ℝ → ℝ
  | [] => 0
  | _ :: rest => ((i : ℝ) + 1) + totalWeightFrom (i + 1) rest

/-- The weighted average `smoothSpeed` returns over a given window. -/
noncomputable def smoothValue (window : List ℝ) : ℝ :=
  weightedSumFrom 0 window / totalWeightFrom 0 window

/-- The source's `smoothSpeed(newSpeed)`: push the sample into the recency
window (evicting the oldest beyond 5 entries) and return the new window
together with its recency-weighted average. -/
noncomputable def smoothSpeed (history : List ℝ) (newSpeed : ℝ) : List ℝ × ℝ :=
  (pushSample history newSpeed, smoothValue (pushSample history newSpeed))

/-- The specification's smoothing formula, in its words: the i-th entry
(0-indexed, oldest = 0) has weight i + 1, and the result is
Σ(sample_i × weight_i) / Σ(weight_i). -/
noncomputable def specWeightedAverage (window : List ℝ) : ℝ :=
  (∑ i in Finset.range window.length, window.getD i 0 * ((i : ℝ) + 1)) /
    (∑ i in Finset.range window.length, ((i : ℝ) + 1))

/-- Iterated pushes of the same raw sample, newest last. -/
def pushN (history : List ℝ) (v : ℝ) : ℕ → List ℝ
  | 0 => history
  | n + 1 => pushSample (pushN history v n) v

theorem weightedSumFrom_eq_sum (l : List ℝ) :
    ∀ j : ℕ, weightedSumFrom j l =
      ∑ i in Finset.range l.length, l.getD i 0 * ((j : ℝ) + (i : ℝ) + 1) := by
  induction l with
  | nil => intro j; simp [weightedSumFrom]
  | cons a t ih =>
    intro j
    rw [weightedSumFrom, ih (j + 1)]
    rw [List.length_cons, Finset.sum_range_succ']
    simp only [List.getD_cons_succ, List.getD_cons_zero, Nat.cast_zero, Nat.cast_add,
      Nat.cast_one]
    ring_nf
    congr 1
    refine Finset.sum_congr rfl fun i _ => ?_
    ring

theorem totalWeightFrom_eq_sum (l : List ℝ) :
    ∀ j : ℕ, totalWeightFrom j l =
      ∑ i in Finset.range l.length, ((j : ℝ) + (i : ℝ) + 1) := by
  induction l with
  | nil => intro j; simp [totalWeightFrom]
  | cons a t ih =>
    intro j
    rw [totalWeightFrom, ih (j + 1)]
    rw [List.length_cons, Finset.sum_range_succ']
    simp only [Nat.cast_zero, Nat.cast_add, Nat.cast_one]
    ring_nf
    congr 1
    refine Finset.sum_congr rfl fun i _ => ?_
    ring

theorem smoothValue_eq_specWeightedAverage (window : List ℝ) :
    smoothValue window = specWeightedAverage window := by
  rw [smoothValue, specWeightedAverage, weightedSumFrom_eq_sum, totalWeightFrom_eq_sum]
  norm_num

theorem pushSample_length (history : List ℝ) (v : ℝ) :
    (pushSample history v).length =
      if history.length < 5 then history.length + 1 else history.length := by
  simp only [pushSample]
  by_cases h : history.length < 5
  · rw [if_neg (by simp; omega), if_pos h]
    simp
  · rw [if_pos (by simp; omega), if_neg h]
    simp only [List.length_tail, List.length_append, List.length_cons, List.length_nil]
    omega

theorem pushSample_length_le (history : List ℝ) (v : ℝ)
    (h : history.length ≤ 5) : (pushSample history v).length ≤ 5 := by
  rw [pushSample_length]
  split <;> omega

theorem foldl_pushSample_length_le (pushes : List ℝ) :
    ∀ s : List ℝ, s.length ≤ 5 → (pushes.foldl pushSample s).length ≤ 5 := by
  induction pushes with
  | nil => intro s hs; simpa using hs
  | cons p rest ih =>
    intro s hs
    exact ih (pushSample s p) (pushSample_length_le s p hs)

theorem pushSample_full (history : List ℝ) (v : ℝ) (h : history.length = 5) :
    pushSample history v = history.tail ++ [v] := by
  rw [pushSample]
  simp only [List.length_append, List.length_singleton]
  rw [if_pos (by omega)]
  rw [List.tail_append_of_ne_nil]
  intro hnil
  rw [hnil] at h
  simp at h

/-- C4: the recency window holds at most 5 entries at every point of every
push sequence (it starts empty and one push preserves the bound), and a
push onto a full window of 5 evicts exactly the oldest entry, FIFO. -/
theorem recencyWindow_invariant (pushes : List ℝ) (history : List ℝ) (v : ℝ) :
    (pushes.foldl pushSample []).length ≤ 5 ∧
    (history.length ≤ 5 → (pushSample history v).length ≤ 5) ∧
    (history.length = 5 → pushSample history v = history.tail ++ [v]) :=
  ⟨foldl_pushSample_length_le pushes [] (by simp),
   pushSample_length_le history v,
   pushSample_full history v⟩

/-- Witness for C4: the invariant applied to a concrete push sequence and a
concrete full window. -/
theorem recencyWindow_invariant_witness :
    ([(1 : ℝ), 2, 3, 4, 5, 6].foldl pushSample []).length ≤ 5 ∧
    pushSample [(1 : ℝ), 2, 3, 4, 5] 6 = [(2 : ℝ), 3, 4, 5] ++ [6] :=
  ⟨(recencyWindow_invariant [(1 : ℝ), 2, 3, 4, 5, 6] [] 0).1,
   (recencyWindow_invariant [] [(1 : ℝ), 2, 3, 4, 5] 6).2.2 rfl⟩

theorem pushN_eq_drop (history : List ℝ) (v : ℝ) (hlen : history.length ≤ 5) :
    ∀ n : ℕ, pushN history v n =
      (history ++ List.replicate n v).drop (history.length + n - 5) := by
  intro n
  induction n with
  | zero =>
    rw [pushN]
    have h0 : history.length + 0 - 5 = 0 := by omega
    rw [h0]
    simp
  | succ n ih =>
    rw [pushN, ih, pushSample]
    simp only [List.length_append, List.length_drop, List.length_replicate,
      List.length_cons, List.length_nil]
    by_cases hc : history.length + n < 5
    · have hd : history.length + n - 5 = 0 := by omega
      have hd' : history.length + (n + 1) - 5 = 0 := by omega
      rw [hd, hd']
      simp only [List.drop_zero]
      rw [if_neg (by omega)]
      rw [List.append_assoc, ← List.replicate_succ']
    · rw [if_pos (by omega)]
      rw [← List.drop_append_of_le_length (by
        simp only [List.length_append, List.length_replicate]; omega)]
      rw [List.tail_drop]
      rw [List.append_assoc, ← List.replicate_succ']
      congr 1
      omega

theorem pushN_replicate (history : List ℝ) (v : ℝ) (hlen : history.length ≤ 5)
    (n : ℕ) (hn : 5 ≤ n) : pushN history v n = List.replicate 5 v := by
  rw [pushN_eq_drop history v hlen n]
  have hsplit : history.length + n - 5 = history.length + (n - 5) := by omega
  rw [hsplit, List.drop_append, List.drop_replicate]
  congr 1
  omega

theorem smoothValue_replicate (v : ℝ) : smoothValue (List.replicate 5 v) = v := by
  show smoothValue [v, v, v, v, v] = v
  rw [smoothValue]
  simp only [weightedSumFrom, totalWeightFrom]
  norm_num
  ring_nf

/-- C3: for every window state and pushed sample, `smoothSpeed` returns the
linear-ramp weighted average of the specification — the i-th entry
(0-indexed, oldest first) weighted i + 1 — and pushing the same value v
five or more times in a row onto any window of the maintained size yields
exactly v (the window then being five copies of v). -/
theorem smoothSpeed_weighted_average (history : List ℝ) (v : ℝ) :
    (smoothSpeed history v).2 = specWeightedAverage ((smoothSpeed history v).1) ∧
    (∀ n : ℕ, 5 ≤ n → history.length ≤ 5 →
      pushN history v n = List.replicate 5 v ∧ smoothValue (pushN history v n) = v) := by
  refine ⟨?_, fun n hn hlen => ?_⟩
  · rw [smoothSpeed]
    exact smoothValue_eq_specWeightedAverage _
  · have hrep := pushN_replicate history v hlen n hn
    exact ⟨hrep, by rw [hrep, smoothValue_replicate]⟩

/-- Witness for C3: the theorem applied to a concrete window and sample:
five pushes of 7 onto the window of two entries yield exactly 7. -/
theorem smoothSpeed_weighted_average_witness :
    pushN [(1 : ℝ), 2] 7 5 = List.replicate 5 7 ∧
      smoothValue (pushN [(1 : ℝ), 2] 7 5) = 7 :=
  (smoothSpeed_weighted_average [(1 : ℝ), 2] 7).2 5 (by norm_num) (by norm_num)

theorem totalWeightFrom_nonneg (l : List ℝ) : ∀ j : ℕ, 0 ≤ totalWeightFrom j l := by
  induction l with
  | nil => intro j; simp [totalWeightFrom]
  | cons a t ih =>
    intro j
    rw [totalWeightFrom]
    have h1 : (0 : ℝ) ≤ (j : ℝ) + 1 := by positivity
    linarith [ih (j + 1)]

theorem totalWeightFrom_ge_one (l : List ℝ) (hne : l ≠ []) :
    ∀ j : ℕ, 1 ≤ totalWeightFrom j l := by
  cases l with
  | nil => exact absurd rfl hne
  | cons a t =>
    intro j
    rw [totalWeightFrom]
    have h1 : (1 : ℝ) ≤ (j : ℝ) + 1 := by
      have : (0 : ℝ) ≤ (j : ℝ) := Nat.cast_nonneg j
      linarith
    linarith [totalWeightFrom_nonneg t (j + 1)]

theorem weightedSumFrom_le (l : List ℝ) (hi : ℝ) (hbound : ∀ x ∈ l, x ≤ hi) :
    ∀ j : ℕ, weightedSumFrom j l ≤ hi * totalWeightFrom j l := by
  induction l with
  | nil => intro j; simp [weightedSumFrom, totalWeightFrom]
  | cons a t ih =>
    intro j
    rw [weightedSumFrom, totalWeightFrom, mul_add]
    have hw : (0 : ℝ) ≤ (j : ℝ) + 1 := by positivity
    have ha : a ≤ hi := hbound a (List.mem_cons_self a t)
    have ht : weightedSumFrom (j + 1) t ≤ hi * totalWeightFrom (j + 1) t :=
      ih (fun x hx => hbound x (List.mem_cons_of_mem a hx)) (j + 1)
    have h1 : a * ((j : ℝ) + 1) ≤ hi * ((j : ℝ) + 1) :=
      mul_le_mul_of_nonneg_right ha hw
    linarith

theorem weightedSumFrom_ge (l : List ℝ) (lo : ℝ) (hbound : ∀ x ∈ l, lo ≤ x) :
    ∀ j : ℕ, lo * totalWeightFrom j l ≤ weightedSumFrom j l := by
  induction l with
  | nil => intro j; simp [weightedSumFrom, totalWeightFrom]
  | cons a t ih =>
    intro j
    rw [weightedSumFrom, totalWeightFrom, mul_add]
    have hw : (0 : ℝ) ≤ (j : ℝ) + 1 := by positivity
    have ha : lo ≤ a := hbound a (List.mem_cons_self a t)
    have ht : lo * totalWeightFrom (j + 1) t ≤ weightedSumFrom (j + 1) t :=
      ih (fun x hx => hbound x (List.mem_cons_of_mem a hx)) (j + 1)
    have h1 : lo * ((j : ℝ) + 1) ≤ a * ((j : ℝ) + 1) :=
      mul_le_mul_of_nonneg_right ha hw
    linarith

theorem pushSample_ne_nil (history : List ℝ) (v : ℝ) : pushSample history v ≠ [] := by
  have hl := pushSample_length history v
  intro hnil
  rw [hnil] at hl
  simp only [List.length_nil] at hl
  split at hl <;> omega

theorem smoothValue_between (window : List ℝ) (hne : window ≠ []) (lo hi : ℝ)
    (hbound : ∀ x ∈ window, lo ≤ x ∧ x ≤ hi) :
    lo ≤ smoothValue window ∧ smoothValue window ≤ hi := by
  have hT : 1 ≤ totalWeightFrom 0 window := totalWeightFrom_ge_one window hne 0
  have hTpos : 0 < totalWeightFrom 0 window := lt_of_lt_of_le one_pos hT
  rw [smoothValue]
  constructor
  · rw [le_div_iff₀ hTpos]
    exact weightedSumFrom_ge window lo (fun x hx => (hbound x hx).1) 0
  · rw [div_le_iff₀ hTpos]
    exact weightedSumFrom_le window hi (fun x hx => (hbound x hx).2) 0

/-- C10: the window is non-empty after every push, so the total weight is
at least 1 and the closing division never divides by zero; the smoothed
value lies between any lower and any upper bound of the window's samples
(hence between its minimum and maximum), and is non-negative whenever all
samples in the window are non-negative. -/
theorem smoothSpeed_safety (history : List ℝ) (v : ℝ) :
    (pushSample history v ≠ [] ∧ 1 ≤ totalWeightFrom 0 (pushSample history v)) ∧
    (∀ lo hi, (∀ x ∈ pushSample history v, lo ≤ x ∧ x ≤ hi) →
      lo ≤ (smoothSpeed history v).2 ∧ (smoothSpeed history v).2 ≤ hi) ∧
    ((∀ x ∈ pushSample history v, 0 ≤ x) → 0 ≤ (smoothSpeed history v).2) := by
  have hne := pushSample_ne_nil history v
  refine ⟨⟨hne, totalWeightFrom_ge_one _ hne 0⟩, fun lo hi hb => ?_, fun hb => ?_⟩
  · exact smoothValue_between _ hne lo hi hb
  · have hS : 0 ≤ weightedSumFrom 0 (pushSample history v) := by
      have h0 := weightedSumFrom_ge (pushSample history v) 0 hb 0
      simpa using h0
    have hT : 0 ≤ totalWeightFrom 0 (pushSample history v) := totalWeightFrom_nonneg _ 0
    show 0 ≤ smoothValue (pushSample history v)
    rw [smoothValue]
    exact div_nonneg hS hT

/-- Witness for C10: the safety bounds applied to the concrete push of 3
onto an empty window, with the non-negativity hypothesis discharged. -/
theorem smoothSpeed_safety_witness : 0 ≤ (smoothSpeed [] (3 : ℝ)).2 :=
  (smoothSpeed_safety [] 3).2.2 (by
    intro x hx
    simp only [pushSample, List.nil_append, List.length_cons, List.length_nil] at hx
    rw [if_neg (by omega)] at hx
    rw [List.mem_singleton] at hx
    rw [hx]
    norm_num)

/-- A raw success payload of the geolocation source, as the watchPosition
success handler reads it: coordinates, timestamp, the device-reported
speed (null or m/s), accuracy, and heading (null or degrees). -/
structure GeoFix where
  latitude : ℝ
  longitude : ℝ
  timestamp : ℝ
  speed : Option ℝ
  accuracy : ℝ
  heading : Option ℝ

/-- The tracking-session state: the component's useState/useRef fields that
the location pipeline reads and writes. -/
structure TrackState where
  speed : ℝ
  maxSpeed : ℝ
  isTracking : Bool
  error : Option String
  accuracy : Option ℝ
  heading : Option ℝ
  isConnected : Bool
  watchId : Option ℕ
  lastPosition : Option Position
  speedHistory : List ℝ

/-- The component's initial state: all hooks at their initial values. -/
def initialTrackState : TrackState :=
  { speed := 0, maxSpeed := 0, isTracking := false, error := none,
    accuracy := none, heading := none, isConnected := false,
    watchId := none, lastPosition := none, speedHistory := [] }

/-- The speed arbitration inside the watchPosition success handler: a
device-reported non-negative speed is used, converted m/s → mph by 2.237;
otherwise the speed derived from the previous fix, when one exists;
otherwise the initial 0. -/
noncomputable def estimateRawSpeed (deviceSpeed : Option ℝ) (lastFix : Option Position)
    (current : Position) : ℝ :=
  match deviceSpeed with
  | some s =>
    if 0 ≤ s then s * 2.237
    else
      match lastFix with
      | some lp => calculateSpeed lp current
      | none => 0
  | none =>
    match lastFix with
    | some lp => calculateSpeed lp current
    | none => 0

/-- The watchPosition success handler: mark connected, update accuracy,
update heading only when the source supplies one, arbitrate the raw speed,
clamp it to non-negative, smooth it, store it as the current speed, fold
it into maxSpeed, and retain the fix as the last position. -/
noncomputable def handlePosition (f : GeoFix) (s : TrackState) : TrackState :=
  let currentPosition : Position :=
    { latitude := f.latitude, longitude := f.longitude, timestamp := f.timestamp }
  let currentSpeed := estimateRawSpeed f.speed s.lastPosition currentPosition
  let newHistory := pushSample s.speedHistory (max 0 currentSpeed)
  let smoothedSpeed := smoothValue newHistory
  { s with
    isConnected := true,
    accuracy := some f.accuracy,
    heading := (match f.heading with | some h => some h | none => s.heading),
    speed := smoothedSpeed,
    maxSpeed := max s.maxSpeed smoothedSpeed,
    lastPosition := some currentPosition,
    speedHistory := newHistory }

/-- The watchPosition error handler's classification switch, on the
GeolocationPositionError code (1 = PERMISSION_DENIED,
2 = POSITION_UNAVAILABLE, 3 = TIMEOUT, anything else = unknown). -/
def classifyGeoError (code : ℕ) : String :=
  if code = 1 then "Location access denied. Please enable location permissions."
  else if code = 2 then "Location information unavailable."
  else if code = 3 then "Location request timed out."
  else "An unknown error occurred."

/-- The watchPosition error handler: mark disconnected and surface the
classified message; nothing else changes (in particular isTracking). -/
def handlePositionError (code : ℕ) (s : TrackState) : TrackState :=
  { s with isConnected := false, error := some (classifyGeoError code) }

/-- The source's `startTracking()`: with no geolocation capability, only
the error is set; otherwise the error is cleared, tracking starts, the
last position and the recency window are reset, and the subscription
handle is stored. -/
def startTracking (supported : Bool) (watch : ℕ) (s : TrackState) : TrackState :=
  if supported then
    { s with
      error := none,
      isTracking := true,
      lastPosition := none,
      speedHistory := [],
      watchId := some watch }
  else
    { s with error := some "Geolocation is not supported by this browser" }

/-- The source's `stopTracking()`: clear the subscription, leave Tracking,
mark disconnected and zero the current speed. -/
def stopTracking (s : TrackState) : TrackState :=
  { s with watchId := none, isTracking := false, isConnected := false, speed := 0 }

/-- The source's `resetMaxSpeed()`. -/
def resetMaxSpeed (s : TrackState) : TrackState :=
  { s with maxSpeed := 0 }

/-- The inputs that drive the tracking session: the two buttons, the two
watchPosition callbacks, and the reset button. -/
inductive TrackEvent where
  | start (supported : Bool) (watch : ℕ)
  | stop
  | fix (f : GeoFix)
  | geoError (code : ℕ)
  | reset

/-- One step of the tracking session.  The watchPosition callbacks are
delivered only while the subscription is live (clearWatch guarantees no
callback after stopTracking), so fix/error events act only when a watch
id is held. -/
noncomputable def trackStep (s : TrackState) : TrackEvent → TrackState
  | TrackEvent.start supported watch => startTracking supported watch s
  | TrackEvent.stop => stopTracking s
  | TrackEvent.fix f => if s.watchId.isSome then handlePosition f s else s
  | TrackEvent.geoError code => if s.watchId.isSome then handlePositionError code s else s
  | TrackEvent.reset => resetMaxSpeed s

/-- The session state after a sequence of events from the initial state. -/
noncomputable def runTrack (events : List TrackEvent) : TrackState :=
  events.foldl trackStep initialTrackState

/-- C2: the estimator's priority policy: a device-reported non-negative
speed is used as deviceSpeedMps × 2.237 (so 10 m/s yields exactly
22.37 mph regardless of any prior fix); a negative or absent device speed
falls back to the distance/time-derived speed when a previous fix exists,
and to 0 otherwise; and the sample the handler feeds to smoothing is the
clamped, non-negative `max 0` of the estimate. -/
theorem speedEstimator_policy (deviceSpeed : Option ℝ) (lastFix : Option Position)
    (current : Position) (f : GeoFix) (s : TrackState) :
    (∀ v : ℝ, 0 ≤ v → estimateRawSpeed (some v) lastFix current = v * 2.237) ∧
    (∀ v : ℝ, ∀ lp : Position, v < 0 →
      estimateRawSpeed (some v) (some lp) current = calculateSpeed lp current) ∧
    (∀ lp : Position, estimateRawSpeed none (some lp) current = calculateSpeed lp current) ∧
    (∀ v : ℝ, v < 0 → estimateRawSpeed (some v) none current = 0) ∧
    (estimateRawSpeed none none current = 0) ∧
    (estimateRawSpeed (some 10) lastFix current = 22.37) ∧
    ((handlePosition f s).speedHistory =
      pushSample s.speedHistory
        (max 0 (estimateRawSpeed f.speed s.lastPosition
          { latitude := f.latitude, longitude := f.longitude, timestamp := f.timestamp }))) ∧
    (0 ≤ max 0 (estimateRawSpeed deviceSpeed lastFix current)) := by
  refine ⟨fun v hv => ?_, fun v lp hv => ?_, fun lp => ?_, fun v hv => ?_, ?_, ?_, ?_, ?_⟩
  · rw [estimateRawSpeed.eq_def]
    dsimp only
    rw [if_pos hv]
  · rw [estimateRawSpeed.eq_def]
    dsimp only
    rw [if_neg (not_le.mpr hv)]
  · rfl
  · rw [estimateRawSpeed.eq_def]
    dsimp only
    rw [if_neg (not_le.mpr hv)]
  · rfl
  · rw [estimateRawSpeed.eq_def]
    dsimp only
    rw [if_pos (by norm_num)]
    norm_num
  · rfl
  · exact le_max_left 0 _

/-- A concrete success payload used by witnesses and the C7
counterexample: a fix with a device-reported speed of 1 m/s. -/
noncomputable def recoveryFix : GeoFix :=
  { latitude := 0, longitude := 0, timestamp := 0, speed := some 1,
    accuracy := 5, heading := none }

/-- Witness for C2: the policy applied at a device speed of 10 m/s with no
prior fix yields exactly 22.37 mph. -/
theorem speedEstimator_policy_witness :
    estimateRawSpeed (some 10) none fixAtStart = 22.37 :=
  (speedEstimator_policy (some 10) none fixAtStart recoveryFix initialTrackState).2.2.2.2.2.1

theorem trackStep_maxSpeed_mono (s : TrackState) (e : TrackEvent)
    (h : e ≠ TrackEvent.reset) : s.maxSpeed ≤ (trackStep s e).maxSpeed := by
  cases e with
  | start supported watch =>
    rw [trackStep, startTracking]
    split <;> exact le_rfl
  | stop => exact le_rfl
  | fix f =>
    rw [trackStep]
    split
    · exact le_max_left s.maxSpeed _
    · exact le_rfl
  | geoError code =>
    rw [trackStep]
    split <;> exact le_rfl
  | reset => exact absurd rfl h

theorem foldl_trackStep_maxSpeed_mono (events : List TrackEvent) :
    ∀ s : TrackState, TrackEvent.reset ∉ events →
      s.maxSpeed ≤ (events.foldl trackStep s).maxSpeed := by
  induction events with
  | nil => intro s _; exact le_rfl
  | cons e rest ih =>
    intro s h
    rw [List.foldl_cons]
    have h1 : e ≠ TrackEvent.reset := fun he => h (List.mem_cons.mpr (Or.inl he.symm))
    have h2 : TrackEvent.reset ∉ rest := fun hm => h (List.mem_cons.mpr (Or.inr hm))
    exact le_trans (trackStep_maxSpeed_mono s e h1) (ih _ h2)

/-- C5: maxSpeed is monotonically non-decreasing under every event other
than the explicit reset (each fix folds in max(maxSpeed, smoothed speed)),
stop and start leave it unchanged, and resetMaxSpeed — valid in either
tracking state — is the only way it becomes 0. -/
theorem maxSpeed_policy (s : TrackState) (events : List TrackEvent) :
    (∀ e : TrackEvent, e ≠ TrackEvent.reset → s.maxSpeed ≤ (trackStep s e).maxSpeed) ∧
    (∀ f : GeoFix, (handlePosition f s).maxSpeed = max s.maxSpeed ((handlePosition f s).speed)) ∧
    (stopTracking s).maxSpeed = s.maxSpeed ∧
    (∀ supported watch, (startTracking supported watch s).maxSpeed = s.maxSpeed) ∧
    (resetMaxSpeed s).maxSpeed = 0 ∧
    (TrackEvent.reset ∉ events → s.maxSpeed ≤ (events.foldl trackStep s).maxSpeed) := by
  refine ⟨trackStep_maxSpeed_mono s, fun f => rfl, rfl, fun supported watch => ?_, rfl,
    foldl_trackStep_maxSpeed_mono events s⟩
  rw [startTracking]
  split <;> rfl

/-- Witness for C5: the monotonicity and reset clauses applied to the
initial state and a concrete event sequence without a reset. -/
theorem maxSpeed_policy_witness :
    initialTrackState.maxSpeed ≤
      (trackStep initialTrackState TrackEvent.stop).maxSpeed ∧
    (resetMaxSpeed initialTrackState).maxSpeed = 0 ∧
    initialTrackState.maxSpeed ≤
      ([TrackEvent.stop].foldl trackStep initialTrackState).maxSpeed :=
  ⟨(maxSpeed_policy initialTrackState []).1 TrackEvent.stop (fun h => TrackEvent.noConfusion h),
   (maxSpeed_policy initialTrackState []).2.2.2.2.1,
   (maxSpeed_policy initialTrackState [TrackEvent.stop]).2.2.2.2.2 (by
     intro hm
     rw [List.mem_singleton] at hm
     exact TrackEvent.noConfusion hm)⟩

/-- C7 (amended): a source failure while Tracking marks the session
disconnected, surfaces one of the four classified error messages, and
leaves the session Tracking with the subscription live; a subsequent
successful fix sets connected back to true but leaves the surfaced error
unchanged — the error field is cleared only by the next startTracking. -/
theorem geoFailure_handling (s : TrackState) (code : ℕ) (f : GeoFix) :
    ((handlePositionError code s).isConnected = false ∧
      (handlePositionError code s).error = some (classifyGeoError code) ∧
      (handlePositionError code s).isTracking = s.isTracking ∧
      (handlePositionError code s).watchId = s.watchId ∧
      classifyGeoError code ∈
        ["Location access denied. Please enable location permissions.",
         "Location information unavailable.",
         "Location request timed out.",
         "An unknown error occurred."]) ∧
    ((handlePosition f s).error = s.error ∧ (handlePosition f s).isConnected = true) ∧
    (∀ watch : ℕ, (startTracking true watch s).error = none) := by
  refine ⟨⟨rfl, rfl, rfl, rfl, ?_⟩, ⟨rfl, rfl⟩, fun watch => rfl⟩
  rw [classifyGeoError]
  split_ifs <;> simp

/-- A session state holding a surfaced timeout error while tracking with a
live subscription: the input of the C7 counterexample. -/
noncomputable def erroredTrackState : TrackState :=
  { initialTrackState with
    isTracking := true,
    watchId := some 1,
    error := some "Location request timed out." }

/-- Counterexample to C7 as stated: delivering a successful fix to a
tracking session holding a surfaced error does not clear the error — the
success handler never touches the error field. -/
theorem fix_does_not_clear_error :
    (trackStep erroredTrackState (TrackEvent.fix recoveryFix)).error ≠ none ∧
    (trackStep erroredTrackState (TrackEvent.fix recoveryFix)).error =
      some "Location request timed out." := by
  have h : (trackStep erroredTrackState (TrackEvent.fix recoveryFix)).error =
      some "Location request timed out." := rfl
  exact ⟨by rw [h]; simp, h⟩

/-- Witness for C7 (amended): the handling theorem applied to the errored
state, a timeout failure and the concrete recovery fix. -/
theorem geoFailure_handling_witness :
    (handlePositionError 3 erroredTrackState).isConnected = false ∧
    (handlePosition recoveryFix erroredTrackState).error = erroredTrackState.error ∧
    (startTracking true 7 erroredTrackState).error = none :=
  ⟨(geoFailure_handling erroredTrackState 3 recoveryFix).1.1,
   (geoFailure_handling erroredTrackState 3 recoveryFix).2.1.1,
   (geoFailure_handling erroredTrackState 3 recoveryFix).2.2 7⟩

/-- The reachable-state fact behind stop-as-no-op: whenever the session is
Idle, the current speed is already 0, the connectivity flag is already
false, and no subscription is held. -/
def idleQuiet (s : TrackState) : Prop :=
  s.isTracking = false → s.speed = 0 ∧ s.isConnected = false ∧ s.watchId = none

theorem idleQuiet_initial : idleQuiet initialTrackState :=
  fun _ => ⟨rfl, rfl, rfl⟩

theorem idleQuiet_step (s : TrackState) (e : TrackEvent) (hs : idleQuiet s) :
    idleQuiet (trackStep s e) := by
  cases e with
  | start supported watch =>
    cases supported with
    | true =>
      intro h
      exact absurd h (by rw [trackStep, startTracking, if_pos rfl]; simp)
    | false =>
      intro h
      exact hs h
  | stop => intro h; exact ⟨rfl, rfl, rfl⟩
  | fix f =>
    rw [trackStep]
    cases hw : s.watchId with
    | none => rw [if_neg (by simp)]; exact hs
    | some w =>
      rw [if_pos (by simp)]
      intro h
      have hq := (hs h).2.2
      rw [hw] at hq
      exact absurd hq (by simp)
  | geoError code =>
    rw [trackStep]
    cases hw : s.watchId with
    | none => rw [if_neg (by simp)]; exact hs
    | some w =>
      rw [if_pos (by simp)]
      intro h
      have hq := (hs h).2.2
      rw [hw] at hq
      exact absurd hq (by simp)
  | reset => intro h; exact hs h

theorem idleQuiet_run (events : List TrackEvent) : idleQuiet (runTrack events) := by
  rw [runTrack]
  induction events using List.reverseRecOn with
  | nil => exact idleQuiet_initial
  | append_singleton rest e ih =>
    rw [List.foldl_append, List.foldl_cons, List.foldl_nil]
    exact idleQuiet_step _ e ih

theorem stopTracking_eq_self (s : TrackState) (h1 : s.isTracking = false)
    (h2 : s.speed = 0) (h3 : s.isConnected = false) (h4 : s.watchId = none) :
    stopTracking s = s := by
  obtain ⟨sp, ms, tr, er, ac, hd, co, wi, lp, hist⟩ := s
  simp only at h1 h2 h3 h4
  rw [stopTracking]
  simp only [h1, h2, h3, h4]

/-- C9: stopTracking clears the subscription, leaves Tracking, marks
disconnected and zeroes the current speed, while maxSpeed, accuracy and
heading are untouched; and on every reachable Idle state it changes
nothing at all. -/
theorem stopTracking_spec (s : TrackState) (events : List TrackEvent) :
    ((stopTracking s).isTracking = false ∧ (stopTracking s).isConnected = false ∧
      (stopTracking s).speed = 0 ∧ (stopTracking s).watchId = none) ∧
    ((stopTracking s).maxSpeed = s.maxSpeed ∧ (stopTracking s).accuracy = s.accuracy ∧
      (stopTracking s).heading = s.heading) ∧
    ((runTrack events).isTracking = false →
      stopTracking (runTrack events) = runTrack events) := by
  refine ⟨⟨rfl, rfl, rfl, rfl⟩, ⟨rfl, rfl, rfl⟩, fun h => ?_⟩
  obtain ⟨h2, h3, h4⟩ := idleQuiet_run events h
  exact stopTracking_eq_self _ h h2 h3 h4

/-- Witness for C9: the specification applied to the errored tracking
state and to the empty event sequence, whose resulting state is Idle. -/
theorem stopTracking_spec_witness :
    (stopTracking erroredTrackState).isTracking = false ∧
    stopTracking (runTrack []) = runTrack [] :=
  ⟨(stopTracking_spec erroredTrackState []).1.1,
   (stopTracking_spec erroredTrackState []).2.2 rfl⟩

/-- The camera-and-recording state: the capture-side useState/useRef
fields.  `stream` models whether streamRef holds a live media stream;
`recorder` models mediaRecorderRef together with the chunk array its
dataavailable handler closes over (chunks are abstracted to their byte
sizes). -/
structure CaptureState where
  isRecording : Bool
  isCameraActive : Bool
  recordedChunks : List ℕ
  cameraError : Option String
  stream : Bool
  recorder : Option (List ℕ)
  deriving DecidableEq

/-- The capture controller's initial state. -/
def initialCaptureState : CaptureState :=
  { isRecording := false, isCameraActive := false, recordedChunks := [],
    cameraError := none, stream := false, recorder := none }

/-- The source's `startCamera()`: on success the stream is acquired, the
camera error cleared and the camera view activated; on failure only the
camera error is set. -/
def startCamera (success : Bool) (s : CaptureState) : CaptureState :=
  if success then
    { s with cameraError := none, stream := true, isCameraActive := true }
  else
    { s with cameraError := some "Camera access denied or not available" }

/-- The source's `startRecording()`: bails out unless a stream is held and
the canvas is mounted (the canvas element exists exactly while the camera
view is active); otherwise creates a recorder over an empty chunk array
and starts recording. -/
def startRecording (s : CaptureState) : CaptureState :=
  if s.stream && s.isCameraActive then
    { s with recorder := some [], isRecording := true }
  else s

/-- The recorder's dataavailable handler: a chunk of positive size is
appended to the recorder's chunk array. -/
def handleDataAvailable (size : ℕ) (s : CaptureState) : CaptureState :=
  match s.recorder with
  | some chunks => if 0 < size then { s with recorder := some (chunks ++ [size]) } else s
  | none => s

/-- The source's `stopRecording()`: when a recorder is held and recording
is on, the recorder stops — its onstop publishes the accumulated chunks as
recordedChunks — and recording is marked off; otherwise nothing happens. -/
def stopRecording (s : CaptureState) : CaptureState :=
  match s.recorder with
  | some chunks =>
    if s.isRecording then
      { s with recordedChunks := chunks, isRecording := false }
    else s
  | none => s

/-- The source's `stopCamera()`: stop and release the stream, leave the
camera view, and, if recording was on, perform stopRecording. -/
def stopCamera (s : CaptureState) : CaptureState :=
  let s1 := { s with stream := false, isCameraActive := false }
  if s1.isRecording then stopRecording s1 else s1

/-- The source's `downloadVideo()`: a no-op on an empty buffer, otherwise
the buffer is exported and cleared. -/
def downloadVideo (s : CaptureState) : CaptureState :=
  if s.recordedChunks = [] then s else { s with recordedChunks := [] }

/-- A press of the Start Recording button.  The button exists only in the
camera view, is rendered only while not recording, and is disabled unless
the session is tracking, so the press reaches `startRecording` only under
that guard. -/
def pressStartRecording (tracking : Bool) (s : CaptureState) : CaptureState :=
  if s.isCameraActive && !s.isRecording && tracking then startRecording s else s

/-- The inputs that drive the capture controller: the camera buttons, the
recording buttons (the start press carrying whether the session is
tracking), recorder data delivery, and the download button. -/
inductive CaptureEvent where
  | cameraStart (success : Bool)
  | recordPress (tracking : Bool)
  | recordStopPress
  | dataChunk (size : ℕ)
  | cameraStop
  | download

/-- One step of the capture controller. -/
def captureStep (s : CaptureState) : CaptureEvent → CaptureState
  | CaptureEvent.cameraStart success => startCamera success s
  | CaptureEvent.recordPress tracking => pressStartRecording tracking s
  | CaptureEvent.recordStopPress => stopRecording s
  | CaptureEvent.dataChunk size => handleDataAvailable size s
  | CaptureEvent.cameraStop => stopCamera s
  | CaptureEvent.download => downloadVideo s

/-- The capture state after a sequence of events from the initial state. -/
def runCapture (events : List CaptureEvent) : CaptureState :=
  events.foldl captureStep initialCaptureState

/-- C6: a Start Recording press while the tracking session is Idle is
rejected outright — the state, in particular the recording flag and the
recording buffer, is unchanged — and a recording can only start from an
active camera with the session tracking. -/
theorem startRecording_requires_tracking (s : CaptureState) (tracking : Bool) :
    pressStartRecording false s = s ∧
    ((pressStartRecording false s).isRecording = s.isRecording ∧
      (pressStartRecording false s).recordedChunks = s.recordedChunks) ∧
    ((pressStartRecording tracking s).isRecording = true → s.isRecording = false →
      s.isCameraActive = true ∧ tracking = true) := by
  refine ⟨?_, ?_, ?_⟩
  · rw [pressStartRecording]
    simp
  · rw [pressStartRecording]
    simp
  · intro hrec hnot
    by_cases hg : (s.isCameraActive && !s.isRecording && tracking) = true
    · simp only [Bool.and_eq_true, Bool.not_eq_true'] at hg
      exact ⟨hg.1.1, hg.2⟩
    · rw [pressStartRecording, if_neg hg] at hrec
      rw [hrec] at hnot
      exact absurd hnot (by simp)

/-- Witness for C6: a press with the session Idle on the concrete state
with an active camera and stream leaves the state unchanged, and the
permitted-only-from guard applied to a concrete successful press. -/
theorem startRecording_requires_tracking_witness :
    pressStartRecording false
      { initialCaptureState with isCameraActive := true, stream := true } =
      { initialCaptureState with isCameraActive := true, stream := true } ∧
    ({ initialCaptureState with
        isCameraActive := true, stream := true } : CaptureState).isCameraActive = true :=
  ⟨(startRecording_requires_tracking
      { initialCaptureState with isCameraActive := true, stream := true } true).1,
   ((startRecording_requires_tracking
      { initialCaptureState with isCameraActive := true, stream := true } true).2.2
      (by decide) (by decide)).1⟩

/-- The reachable-state fact behind stopCamera's finalization: whenever
recording is on, a recorder is held (startRecording installed it and
nothing ever removes it). -/
def recordingHasRecorder (s : CaptureState) : Prop :=
  s.isRecording = true → s.recorder.isSome = true

theorem recordingHasRecorder_initial : recordingHasRecorder initialCaptureState :=
  fun h => absurd h (by simp [initialCaptureState])

theorem recordingHasRecorder_step (s : CaptureState) (e : CaptureEvent)
    (hs : recordingHasRecorder s) : recordingHasRecorder (captureStep s e) := by
  cases e with
  | cameraStart success =>
    rw [captureStep, startCamera]
    split <;> exact hs
  | recordPress tracking =>
    rw [captureStep, pressStartRecording]
    split
    · rw [startRecording]
      split
      · intro h; rfl
      · exact hs
    · exact hs
  | recordStopPress =>
    rw [captureStep, stopRecording]
    repeat' split
    all_goals
      first
        | exact hs
        | (intro h; exact Bool.noConfusion h)
  | dataChunk size =>
    rw [captureStep, handleDataAvailable]
    repeat' split
    all_goals
      first
        | exact hs
        | (intro h; rfl)
  | cameraStop =>
    rw [captureStep, stopCamera]
    split
    · rw [stopRecording]
      repeat' split
      all_goals
        first
          | exact hs
          | (intro h; exact Bool.noConfusion h)
    · exact hs
  | download =>
    rw [captureStep, downloadVideo]
    split <;> exact hs

theorem recordingHasRecorder_run (events : List CaptureEvent) :
    recordingHasRecorder (runCapture events) := by
  rw [runCapture]
  induction events using List.reverseRecOn with
  | nil => exact recordingHasRecorder_initial
  | append_singleton rest e ih =>
    rw [List.foldl_append, List.foldl_cons, List.foldl_nil]
    exact recordingHasRecorder_step _ e ih

/-- C8: stopCamera while Recording first performs stopRecording —
publishing the recorder's accumulated chunks as the finalized buffer, so a
non-empty accumulation yields a non-empty buffer — releases the stream,
and ends with the camera off and not recording; on every reachable state
it never ends in Recording. -/
theorem stopCamera_finalizes (s : CaptureState) (cs : List ℕ) (events : List CaptureEvent) :
    (s.isRecording = true → s.recorder = some cs →
      (stopCamera s).isRecording = false ∧
      (stopCamera s).isCameraActive = false ∧
      (stopCamera s).stream = false ∧
      (stopCamera s).recordedChunks = cs ∧
      (cs ≠ [] → (stopCamera s).recordedChunks ≠ [])) ∧
    ((stopCamera s).isCameraActive = false ∧ (stopCamera s).stream = false) ∧
    (stopCamera (runCapture events)).isRecording = false := by
  refine ⟨fun hrec hrecorder => ?_, ?_, ?_⟩
  · rw [stopCamera]
    rw [if_pos (by simpa using hrec)]
    rw [stopRecording]
    split
    · rename_i chunks heq
      simp only at heq
      rw [hrecorder] at heq
      cases heq
      rw [if_pos (by simpa using hrec)]
      exact ⟨rfl, rfl, rfl, rfl, fun h => h⟩
    · rename_i heq
      simp only at heq
      rw [hrecorder] at heq
      cases heq
  · rw [stopCamera]
    split
    · rw [stopRecording]
      split
      · split <;> exact ⟨rfl, rfl⟩
      · exact ⟨rfl, rfl⟩
    · exact ⟨rfl, rfl⟩
  · have hinv := recordingHasRecorder_run events
    rw [stopCamera]
    split
    · rename_i hr
      simp only at hr
      rw [stopRecording]
      split
      · rw [if_pos hr]
      · rename_i heq
        simp only at heq
        have := hinv hr
        rw [heq] at this
        exact absurd this (by simp)
    · rename_i hr
      simp only at hr
      exact (Bool.not_eq_true _).mp hr

/-- A concrete capture state in the middle of a recording that has
accumulated one 512-byte chunk: input of the C8 witness. -/
def recordingCaptureState : CaptureState :=
  { isRecording := true, isCameraActive := true, recordedChunks := [],
    cameraError := none, stream := true, recorder := some [512] }

/-- Witness for C8: stopping the camera mid-recording on the concrete
state finalizes the accumulated chunk into the buffer and leaves Recording,
and the reachable-state clause applied to the empty history. -/
theorem stopCamera_finalizes_witness :
    (stopCamera recordingCaptureState).isRecording = false ∧
    (stopCamera recordingCaptureState).recordedChunks = [512] ∧
    (stopCamera (runCapture [])).isRecording = false :=
  ⟨((stopCamera_finalizes recordingCaptureState [512] []).1 rfl rfl).1,
   ((stopCamera_finalizes recordingCaptureState [512] []).1 rfl rfl).2.2.2.1,
   (stopCamera_finalizes recordingCaptureState [512] []).2.2⟩
